import Mathlib

/-!
Shallow embedding of the reverse-mode autodiff engine in `nn.py`.

The engine manipulates a graph of `Tensor` objects holding numpy arrays.
Python object identity and in-place mutation are modelled by a store
(`Store`, a list of tensor records) indexed by `NodeId`; each operation
constructor appends a fresh record, so children always carry smaller
indices than their parents.

Numpy arrays are modelled by `Arr`: either a 0-d scalar or a 1-d vector
of rationals, with elementwise operations broadcasting a scalar over a
vector exactly as numpy does for the shapes this model represents.
The 2-d matrices needed by `Matmul`'s gradient formulas are modelled
separately (`NdMat` below) with explicit dynamic shapes.

Python's closures stored in `_backward` capture only the operand and
result references together with the operation kind, so they are
defunctionalised into the `BackFn` tag interpreted by `runBack`,
whose branches transcribe each closure body (including its guard
structure and the order of the two in-place updates).
-/

namespace NN

abbrev NodeId := Nat

/-- A numpy value as used by the elementwise fragment of the engine:
a 0-d scalar or a 1-d vector of rationals. -/
inductive Arr where
  | scalar (q : ℚ)
  | vec (xs : List ℚ)
deriving DecidableEq, Repr

namespace Arr

/-- Elementwise unary map (numpy broadcasts over all entries). -/
def map (f : ℚ → ℚ) : Arr → Arr
  | scalar q => scalar (f q)
  | vec xs => vec (xs.map f)

/-- Elementwise binary operation with numpy scalar broadcasting. -/
def zip (f : ℚ → ℚ → ℚ) : Arr → Arr → Arr
  | scalar a, scalar b => scalar (f a b)
  | scalar a, vec ys => vec (ys.map (fun y => f a y))
  | vec xs, scalar b => vec (xs.map (fun x => f x b))
  | vec xs, vec ys => vec (List.zipWith f xs ys)

/-- `np.zeros_like`. -/
def zerosLike (a : Arr) : Arr := a.map (fun _ => 0)

/-- `np.ones_like`. -/
def onesLike (a : Arr) : Arr := a.map (fun _ => 1)

end Arr

/-- The defunctionalised `_backward` closure: the operation kind plus the
captured operand and result references. -/
inductive BackFn where
  | none
  | add (a b z : NodeId)
  | mul (a b z : NodeId)
  | neg (a z : NodeId)
  | matmul (a b z : NodeId)
  | pow (a : NodeId) (p : ℤ) (z : NodeId)
  | div (a b z : NodeId)
  | exp (a z : NodeId)
deriving DecidableEq, Repr

/-- One `Tensor` object: `data`, `grad`, `_prev` (the set of children,
kept as a deduplicated list), `_op`, `requires_grad`, `_backward`. -/
structure TObj where
  data : Arr
  grad : Arr
  prev : List NodeId
  op : String
  requires_grad : Bool
  backfn : BackFn
deriving DecidableEq, Repr

/-- The heap of tensor objects; a `NodeId` is an index into it. -/
abbrev Store := List TObj

/-- The record a dangling reference dereferences to; constructors never
produce dangling references, so this default is unobservable in
well-formed stores. -/
def defaultT : TObj := ⟨Arr.scalar 0, Arr.scalar 0, [], "", false, BackFn.none⟩

def getT (s : Store) (i : NodeId) : TObj := s.getD i defaultT

def dataOf (s : Store) (i : NodeId) : Arr := (getT s i).data
def gradOf (s : Store) (i : NodeId) : Arr := (getT s i).grad
def prevOf (s : Store) (i : NodeId) : List NodeId := (getT s i).prev
def reqOf (s : Store) (i : NodeId) : Bool := (getT s i).requires_grad
def backOf (s : Store) (i : NodeId) : BackFn := (getT s i).backfn

/-- In-place update of one tensor's `grad` field. -/
def setGrad (s : Store) (i : NodeId) (g : Arr) : Store :=
  s.set i { getT s i with grad := g }

/-- `t.grad += x` (elementwise in-place accumulation). -/
def addGrad (s : Store) (i : NodeId) (x : Arr) : Store :=
  setGrad s i (Arr.zip (· + ·) (gradOf s i) x)

/-- In-place update of one tensor's `_backward` field
(`z._backward = _backward` in each constructor). -/
def setBack (s : Store) (i : NodeId) (bf : BackFn) : Store :=
  s.set i { getT s i with backfn := bf }

/-- `Tensor(data, _children, _op, requires_grad=rg)`: `grad` is
zero-initialised, `_prev = set(_children)`, `_backward` is the no-op. -/
def mkTensor (s : Store) (data : Arr) (children : List NodeId) (op : String)
    (rg : Bool) : Store × NodeId :=
  (s ++ [⟨data, Arr.zerosLike data, children.dedup, op, rg, BackFn.none⟩], s.length)

/-- A user-facing leaf: `Tensor(data)` with the constructor defaults
(no children, op `''`, `requires_grad` as given). -/
def mkLeaf (s : Store) (data : Arr) (rg : Bool) : Store × NodeId :=
  mkTensor s data [] "" rg

/-! ### Operation constructors

Each transcribes the corresponding top-level function of `nn.py`:
compute `requires_grad` as the OR of the operands' flags (or copy the
single operand's flag), compute the forward data, allocate the result
tensor with the operands as children, then install the backward closure. -/

/-- `Add(a, b)`. -/
def Add (s : Store) (a b : NodeId) : Store × NodeId :=
  let rg := reqOf s a || reqOf s b
  let data := Arr.zip (· + ·) (dataOf s a) (dataOf s b)
  let p := mkTensor s data [a, b] "+" rg
  (setBack p.1 p.2 (BackFn.add a b p.2), p.2)

/-- `Mul(a, b)`. -/
def Mul (s : Store) (a b : NodeId) : Store × NodeId :=
  let rg := reqOf s a || reqOf s b
  let data := Arr.zip (· * ·) (dataOf s a) (dataOf s b)
  let p := mkTensor s data [a, b] "*" rg
  (setBack p.1 p.2 (BackFn.mul a b p.2), p.2)

/-- `Neg(a)` (forward data `a.data * -1`). -/
def Neg (s : Store) (a : NodeId) : Store × NodeId :=
  let data := Arr.map (fun x => x * (-1)) (dataOf s a)
  let p := mkTensor s data [a] "neg" (reqOf s a)
  (setBack p.1 p.2 (BackFn.neg a p.2), p.2)

/-- Dot product of two equal-length vectors (`np.matmul` on 1-d inputs). -/
def dot (xs ys : List ℚ) : ℚ := (List.zipWith (· * ·) xs ys).sum

/-- `np.matmul` restricted to the shapes `Arr` can represent: numpy
rejects scalar operands outright, and 1-d @ 1-d requires equal lengths
and yields a scalar. `none` stands for the raised numpy exception. -/
def matmul1 : Arr → Arr → Option Arr
  | Arr.vec xs, Arr.vec ys =>
      if xs.length = ys.length then some (Arr.scalar (dot xs ys)) else Option.none
  | _, _ => Option.none

/-- `.T` on the shapes `Arr` represents (0-d and 1-d transpose are
identities in numpy). -/
def transpose1 (a : Arr) : Arr := a

/-- Errors surfaced by the Python layer. -/
inductive PyErr where
  /-- a raw (non-`Tensor`) operand has no `requires_grad` attribute -/
  | attributeError
  /-- the `isinstance(other, (int, float))` assertion in `__pow__` -/
  | invalidArgument
  /-- a shape error raised by numpy -/
  | shapeMismatch
deriving DecidableEq, Repr

/-- `Matmul(a, b)`: fails when numpy rejects the operand shapes. -/
def Matmul (s : Store) (a b : NodeId) : Except PyErr (Store × NodeId) :=
  let rg := reqOf s a || reqOf s b
  match matmul1 (dataOf s a) (dataOf s b) with
  | Option.none => Except.error PyErr.shapeMismatch
  | some data =>
      let p := mkTensor s data [a, b] "@" rg
      Except.ok (setBack p.1 p.2 (BackFn.matmul a b p.2), p.2)

/-- `Pow(a, b)` with a scalar exponent; Python scalars are modelled as
integers so that `np.power` stays inside ℚ. -/
def Pow (s : Store) (a : NodeId) (b : ℤ) : Store × NodeId :=
  let data := Arr.map (fun x => x ^ b) (dataOf s a)
  let p := mkTensor s data [a] "pow" (reqOf s a)
  (setBack p.1 p.2 (BackFn.pow a b p.2), p.2)

/-- `Div(a, b)` (note the source tags it `'*'`). -/
def Div (s : Store) (a b : NodeId) : Store × NodeId :=
  let rg := reqOf s a || reqOf s b
  let data := Arr.zip (· / ·) (dataOf s a) (dataOf s b)
  let p := mkTensor s data [a, b] "*" rg
  (setBack p.1 p.2 (BackFn.div a b p.2), p.2)

/-- `Exp(a)`; `np.exp` is the host library's opaque elementwise map,
passed in as `expf`. -/
def Exp (s : Store) (expf : ℚ → ℚ) (a : NodeId) : Store × NodeId :=
  let data := Arr.map expf (dataOf s a)
  let p := mkTensor s data [a] "exp" (reqOf s a)
  (setBack p.1 p.2 (BackFn.exp a p.2), p.2)

/-! ### The backward closures

`runBack` interprets one `_backward` closure against the current store,
transcribing each closure body: the guard on each operand's
`requires_grad` and the order of the two accumulations (the second
update reads the store as left by the first, which is what makes the
source's `Mul` rule read `a.grad` after it was just incremented). -/

def runBack (s : Store) : BackFn → Store
  | BackFn.none => s
  | BackFn.add a b z =>
      let s1 := if reqOf s a then addGrad s a (gradOf s z) else s
      if reqOf s1 b then addGrad s1 b (gradOf s1 z) else s1
  | BackFn.mul a b z =>
      -- a.grad += b.data * z.grad
      let s1 := if reqOf s a then
        addGrad s a (Arr.zip (· * ·) (dataOf s b) (gradOf s z)) else s
      -- b.grad += a.grad * z.grad   (the source reads the accumulator a.grad,
      -- not the forward value a.data)
      if reqOf s1 b then
        addGrad s1 b (Arr.zip (· * ·) (gradOf s1 a) (gradOf s1 z)) else s1
  | BackFn.neg a z =>
      -- a.grad += -1 * z.grad
      if reqOf s a then
        addGrad s a (Arr.map (fun x => (-1) * x) (gradOf s z)) else s
  | BackFn.matmul a b z =>
      -- a.grad += z.grad @ b.data.T ; b.grad += a.data.T @ z.grad
      -- For the 0-d/1-d shapes `Arr` represents numpy raises on these
      -- products (scalar operands are not allowed in matmul); the raised
      -- exception is modelled by leaving the store unchanged, a branch no
      -- well-shaped 2-d graph reaches (2-d matmul is modelled on `NdMat`).
      let s1 := if reqOf s a then
        match matmul1 (gradOf s z) (transpose1 (dataOf s b)) with
        | some g => addGrad s a g
        | Option.none => s
        else s
      if reqOf s1 b then
        match matmul1 (transpose1 (dataOf s1 a)) (gradOf s1 z) with
        | some g => addGrad s1 b g
        | Option.none => s1
        else s1
  | BackFn.pow a p z =>
      -- a.grad += b * (np.power(a.data, b - 1)) * z.grad
      if reqOf s a then
        addGrad s a (Arr.zip (· * ·)
          (Arr.zip (· * ·) (Arr.scalar (p : ℚ))
            (Arr.map (fun x => x ^ (p - 1)) (dataOf s a)))
          (gradOf s z))
      else s
  | BackFn.div a b z =>
      -- a.grad += z.grad * (1 / b.data)
      let s1 := if reqOf s a then
        addGrad s a (Arr.zip (· * ·) (gradOf s z)
          (Arr.zip (· / ·) (Arr.scalar 1) (dataOf s b))) else s
      -- b.grad += -z.grad * a.data / (b.data ** 2)
      if reqOf s1 b then
        addGrad s1 b (Arr.zip (· / ·)
          (Arr.zip (· * ·) (Arr.map (fun x => -x) (gradOf s1 z)) (dataOf s1 a))
          (Arr.map (fun x => x ^ (2 : ℕ)) (dataOf s1 b))) else s1
  | BackFn.exp a z =>
      -- a.grad += z.data * z.grad
      if reqOf s a then
        addGrad s a (Arr.zip (· * ·) (dataOf s z) (gradOf s z)) else s

/-! ### The topological sort and the backward driver -/

/-- `build_topo(v)` of `Tensor.backward`, on the state
`(visited, topo)`. The `fuel` argument bounds the recursion depth; in
any store built by the constructors children carry strictly smaller
indices than their parents, so fuel `v + 1` never runs out (this is
proved below, not assumed). -/
def visit (s : Store) : Nat → NodeId → List NodeId × List NodeId →
    List NodeId × List NodeId
  | 0, _, st => st
  | f + 1, v, st =>
      if v ∈ st.1 then st
      else
        let st2 := (prevOf s v).foldl (fun acc c => visit s f c acc) (v :: st.1, st.2)
        (st2.1, st2.2 ++ [v])

/-- The recorded order `topo` after `build_topo(self)`. -/
def buildTopo (s : Store) (root : NodeId) : List NodeId :=
  (visit s (root + 1) root ([], [])).2

/-- `Tensor.backward`: record the order, seed `self.grad` with ones,
then replay the order reversed, invoking each node's `_backward`
(the debug `print(topo)` performs no state change and is dropped). -/
def backward (s : Store) (root : NodeId) : Store :=
  let topo := buildTopo s root
  let s1 := setGrad s root (Arr.onesLike (dataOf s root))
  topo.reverse.foldl (fun st v => runBack st (backOf st v)) s1

/-! ### The Python operator layer

The dunder methods of `Tensor` receive an arbitrary Python value as
`other`. The values that reach them in this program are tensors, raw
numeric scalars and raw lists; raw Python scalars are modelled as
integers so that `np.power` stays inside ℚ. -/

inductive PyVal where
  | tensor (t : NodeId)
  | num (n : ℤ)
  | pylist (xs : List ℚ)
deriving DecidableEq, Repr

/-- `other if isinstance(other, Tensor) else Tensor(other)`: a raw value
is wrapped into a fresh leaf (numpy stores a raw scalar as a 0-d array
and a raw list as a 1-d array). -/
def coerce (s : Store) (v : PyVal) : Store × NodeId :=
  match v with
  | PyVal.tensor t => (s, t)
  | PyVal.num n => mkLeaf s (Arr.scalar (n : ℚ)) false
  | PyVal.pylist xs => mkLeaf s (Arr.vec xs) false

/-- `__add__`. -/
def tensor_add (s : Store) (self : NodeId) (other : PyVal) : Store × NodeId :=
  let p := coerce s other
  Add p.1 self p.2

/-- `__mul__`. -/
def tensor_mul (s : Store) (self : NodeId) (other : PyVal) : Store × NodeId :=
  let p := coerce s other
  Mul p.1 self p.2

/-- `__neg__`. -/
def tensor_neg (s : Store) (self : NodeId) : Store × NodeId :=
  Neg s self

/-- `__sub__`: coerce, then `self + (-other)`. -/
def tensor_sub (s : Store) (self : NodeId) (other : PyVal) : Store × NodeId :=
  let p := coerce s other
  let q := Neg p.1 p.2
  Add q.1 self q.2

/-- `__rsub__`: the source returns `self - other` (no operand swap), so
`other - self` at the Python level computes `self.data - other`. -/
def tensor_rsub (s : Store) (self : NodeId) (other : PyVal) : Store × NodeId :=
  tensor_sub s self other

/-- `__matmul__`: the source passes `other` to `Matmul` without the
coercion the other dunders perform, and `Matmul` immediately reads
`b.requires_grad`, which a raw numeric value does not have. -/
def tensor_matmul (s : Store) (self : NodeId) (other : PyVal) :
    Except PyErr (Store × NodeId) :=
  match other with
  | PyVal.tensor t => Matmul s self t
  | _ => Except.error PyErr.attributeError

/-- `__pow__`: `assert isinstance(other, (int, float))`, then `Pow`. -/
def tensor_pow (s : Store) (self : NodeId) (other : PyVal) :
    Except PyErr (Store × NodeId) :=
  match other with
  | PyVal.num n => Except.ok (Pow s self n)
  | _ => Except.error PyErr.invalidArgument

/-- `__truediv__`. -/
def tensor_div (s : Store) (self : NodeId) (other : PyVal) : Store × NodeId :=
  let p := coerce s other
  Div p.1 self p.2

/-- `Tensor.exp`. -/
def tensor_exp (s : Store) (expf : ℚ → ℚ) (self : NodeId) : Store × NodeId :=
  Exp s expf self

/-! ### Dynamically shaped 2-d matrices for `Matmul`

Numpy's 2-d arrays carry their shape at run time; `NdMat` records the
shape alongside the row-major entries, and `NdMat.Wf` says the entries
actually fill that shape. -/

structure NdMat where
  rows : Nat
  cols : Nat
  entries : List (List ℚ)
deriving DecidableEq, Repr

namespace NdMat

def Wf (A : NdMat) : Prop :=
  A.entries.length = A.rows ∧ ∀ r ∈ A.entries, r.length = A.cols

instance (A : NdMat) : Decidable A.Wf := by
  unfold Wf; infer_instance

/-- Column `j` as a list. -/
def col (A : NdMat) (j : Nat) : List ℚ := A.entries.map (fun r => r.getD j 0)

/-- `.T`. -/
def transpose (A : NdMat) : NdMat :=
  ⟨A.cols, A.rows, (List.range A.cols).map (fun j => A.col j)⟩

/-- `@` on 2-d arrays. -/
def matmul (A B : NdMat) : NdMat :=
  ⟨A.rows, B.cols,
    A.entries.map (fun row => (List.range B.cols).map (fun j => dot row (B.col j)))⟩

/-- Elementwise `+` (the shapes agree in every use below). -/
def add (A B : NdMat) : NdMat :=
  ⟨A.rows, A.cols, List.zipWith (List.zipWith (· + ·)) A.entries B.entries⟩

/-- `np.zeros_like`. -/
def zerosLike (A : NdMat) : NdMat :=
  ⟨A.rows, A.cols, A.entries.map (fun r => r.map (fun _ => 0))⟩

end NdMat

/-- A tensor as `Matmul` sees it: 2-d data and grad plus the flag. -/
structure MTensor where
  data : NdMat
  grad : NdMat
  requires_grad : Bool
deriving DecidableEq, Repr

/-- The forward part of `Matmul(a, b)` on 2-d operands: data
`a.data @ b.data`, zero-initialised grad, OR of the flags. -/
def MatmulF (a b : MTensor) : MTensor :=
  ⟨a.data.matmul b.data, NdMat.zerosLike (a.data.matmul b.data),
    a.requires_grad || b.requires_grad⟩

/-- The `_backward` closure of `Matmul(a, b)` on 2-d operands, reading
the result tensor `z` as it stands when the closure is invoked:
`a.grad += z.grad @ b.data.T` then `b.grad += a.data.T @ z.grad`, each
guarded by the operand's flag. -/
def matmulBack (a b z : MTensor) : MTensor × MTensor :=
  let a' := if a.requires_grad then
    { a with grad := a.grad.add (z.grad.matmul b.data.transpose) } else a
  let b' := if b.requires_grad then
    { b with grad := b.grad.add (a.data.transpose.matmul z.grad) } else b
  (a', b')

/-! ### Store lemmas -/

theorem getT_set (s : Store) (j : NodeId) (o : TObj) (i : NodeId) :
    getT (s.set j o) i = if j = i ∧ j < s.length then o else getT s i := by
  unfold getT
  by_cases h : j = i
  · subst h
    by_cases hl : j < s.length
    · simp [List.getD, List.getElem?_set_eq_of_lt _ hl, hl]
    · simp [List.getD, List.getElem?_set, hl,
        List.getElem?_eq_none (Nat.le_of_not_lt hl)]
  · simp [List.getD, List.getElem?_set_ne (fun hh => h hh), h]

theorem getT_setGrad (s : Store) (j : NodeId) (g : Arr) (i : NodeId) :
    getT (setGrad s j g) i =
      if j = i ∧ j < s.length then { getT s j with grad := g } else getT s i := by
  unfold setGrad; rw [getT_set]

theorem getT_addGrad (s : Store) (j : NodeId) (x : Arr) (i : NodeId) :
    getT (addGrad s j x) i =
      if j = i ∧ j < s.length then
        { getT s j with grad := Arr.zip (· + ·) (gradOf s j) x }
      else getT s i := by
  unfold addGrad; rw [getT_setGrad]

/-- `s'` differs from `s` at most in `grad` fields: everything a
backward closure reads other than gradients is untouched. -/
def Frame (s s' : Store) : Prop :=
  s'.length = s.length ∧ ∀ i, dataOf s' i = dataOf s i ∧ prevOf s' i = prevOf s i ∧
    reqOf s' i = reqOf s i ∧ backOf s' i = backOf s i

theorem Frame.refl (s : Store) : Frame s s := ⟨rfl, fun _ => ⟨rfl, rfl, rfl, rfl⟩⟩

theorem Frame.trans {s t u : Store} (h1 : Frame s t) (h2 : Frame t u) : Frame s u := by
  refine ⟨h2.1.trans h1.1, fun i => ?_⟩
  obtain ⟨a1, b1, c1, d1⟩ := h1.2 i
  obtain ⟨a2, b2, c2, d2⟩ := h2.2 i
  exact ⟨a2.trans a1, b2.trans b1, c2.trans c1, d2.trans d1⟩

theorem frame_setGrad (s : Store) (j : NodeId) (g : Arr) : Frame s (setGrad s j g) := by
  refine ⟨List.length_set .., fun i => ?_⟩
  unfold dataOf prevOf reqOf backOf
  rw [getT_setGrad]
  split
  · rename_i h; obtain ⟨h1, _⟩ := h; subst h1; exact ⟨rfl, rfl, rfl, rfl⟩
  · exact ⟨rfl, rfl, rfl, rfl⟩

theorem frame_addGrad (s : Store) (j : NodeId) (x : Arr) : Frame s (addGrad s j x) :=
  frame_setGrad ..

theorem frame_ite {s t u : Store} (c : Prop) [Decidable c]
    (h1 : Frame s t) (h2 : Frame s u) : Frame s (if c then t else u) := by
  split <;> assumption

theorem frame_runBack (s : Store) (bf : BackFn) : Frame s (runBack s bf) := by
  cases bf with
  | none => exact Frame.refl s
  | add a b z =>
      refine Frame.trans (s := s) (t := if reqOf s a then addGrad s a (gradOf s z) else s)
        (frame_ite _ (frame_addGrad ..) (Frame.refl s)) ?_
      exact frame_ite _ (frame_addGrad ..) (Frame.refl _)
  | mul a b z =>
      refine Frame.trans
        (t := if reqOf s a then addGrad s a (Arr.zip (· * ·) (dataOf s b) (gradOf s z)) else s)
        (frame_ite _ (frame_addGrad ..) (Frame.refl s)) ?_
      exact frame_ite _ (frame_addGrad ..) (Frame.refl _)
  | neg a z => exact frame_ite _ (frame_addGrad ..) (Frame.refl s)
  | matmul a b z =>
      refine Frame.trans
        (t := if reqOf s a then
          match matmul1 (gradOf s z) (transpose1 (dataOf s b)) with
          | some g => addGrad s a g
          | Option.none => s
          else s) ?_ ?_
      · refine frame_ite _ ?_ (Frame.refl s)
        cases matmul1 (gradOf s z) (transpose1 (dataOf s b)) with
        | none => exact Frame.refl s
        | some g => exact frame_addGrad ..
      · refine frame_ite _ ?_ (Frame.refl _)
        generalize (if reqOf s a then
          match matmul1 (gradOf s z) (transpose1 (dataOf s b)) with
          | some g => addGrad s a g
          | Option.none => s
          else s) = s1
        cases matmul1 (transpose1 (dataOf s1 a)) (gradOf s1 z) with
        | none => exact Frame.refl s1
        | some g => exact frame_addGrad ..
  | pow a p z => exact frame_ite _ (frame_addGrad ..) (Frame.refl s)
  | div a b z =>
      refine Frame.trans
        (t := if reqOf s a then
          addGrad s a (Arr.zip (· * ·) (gradOf s z)
            (Arr.zip (· / ·) (Arr.scalar 1) (dataOf s b))) else s)
        (frame_ite _ (frame_addGrad ..) (Frame.refl s)) ?_
      exact frame_ite _ (frame_addGrad ..) (Frame.refl _)
  | exp a z => exact frame_ite _ (frame_addGrad ..) (Frame.refl s)

theorem gradOf_setGrad_ne (s : Store) (g : Arr) {j i : NodeId} (h : j ≠ i) :
    gradOf (setGrad s j g) i = gradOf s i := by
  unfold gradOf; rw [getT_setGrad]; simp [h]

theorem gradOf_setGrad_self (s : Store) (g : Arr) {j : NodeId} (h : j < s.length) :
    gradOf (setGrad s j g) j = g := by
  unfold gradOf; rw [getT_setGrad]; simp [h]

theorem gradOf_addGrad_ne (s : Store) (x : Arr) {j i : NodeId} (h : j ≠ i) :
    gradOf (addGrad s j x) i = gradOf s i :=
  gradOf_setGrad_ne s _ h

/-- A guarded accumulation (`if t.requires_grad: t.grad += x`) cannot
touch the gradient of a node whose flag is off. -/
theorem gradOf_guarded_addGrad (s : Store) (j : NodeId) (x : Arr) {i : NodeId}
    (h : reqOf s i = false) :
    gradOf (if reqOf s j then addGrad s j x else s) i = gradOf s i := by
  split
  · rename_i hj
    refine gradOf_addGrad_ne s x (fun hji => ?_)
    subst hji; rw [h] at hj; exact Bool.false_ne_true hj
  · rfl

/-- No backward closure writes into a node whose `requires_grad` is
false. -/
theorem gradOf_runBack_of_req_false (s : Store) (bf : BackFn) {i : NodeId}
    (h : reqOf s i = false) :
    gradOf (runBack s bf) i = gradOf s i := by
  cases bf with
  | none => rfl
  | add a b z =>
      show gradOf (if reqOf _ b then addGrad _ b _ else _) i = _
      rw [gradOf_guarded_addGrad _ b _
        (((frame_ite (reqOf s a) (frame_addGrad ..) (Frame.refl s)).2 i).2.2.1.trans h)]
      exact gradOf_guarded_addGrad s a _ h
  | mul a b z =>
      show gradOf (if reqOf _ b then addGrad _ b _ else _) i = _
      rw [gradOf_guarded_addGrad _ b _
        (((frame_ite (reqOf s a) (frame_addGrad ..) (Frame.refl s)).2 i).2.2.1.trans h)]
      exact gradOf_guarded_addGrad s a _ h
  | neg a z => exact gradOf_guarded_addGrad s a _ h
  | matmul a b z =>
      have h1 : ∀ t : Store, reqOf t i = false →
          gradOf (if reqOf t a then
            match matmul1 (gradOf t z) (transpose1 (dataOf t b)) with
            | some g => addGrad t a g
            | Option.none => t
            else t) i = gradOf t i := by
        intro t ht
        split
        · rename_i hj
          cases matmul1 (gradOf t z) (transpose1 (dataOf t b)) with
          | none => rfl
          | some g =>
              refine gradOf_addGrad_ne t g (fun hji => ?_)
              subst hji; rw [ht] at hj; exact Bool.false_ne_true hj
        · rfl
      show gradOf (if reqOf _ b then _ else _) i = _
      generalize hs1 : (if reqOf s a then
        match matmul1 (gradOf s z) (transpose1 (dataOf s b)) with
        | some g => addGrad s a g
        | Option.none => s
        else s) = s1
      have hfr : Frame s s1 := by
        rw [← hs1]
        refine frame_ite _ ?_ (Frame.refl s)
        cases matmul1 (gradOf s z) (transpose1 (dataOf s b)) with
        | none => exact Frame.refl s
        | some g => exact frame_addGrad ..
      have hreq1 : reqOf s1 i = false := ((hfr.2 i).2.2.1).trans h
      have step2 : gradOf (if reqOf s1 b then
          match matmul1 (transpose1 (dataOf s1 a)) (gradOf s1 z) with
          | some g => addGrad s1 b g
          | Option.none => s1
          else s1) i = gradOf s1 i := by
        split
        · rename_i hj
          cases matmul1 (transpose1 (dataOf s1 a)) (gradOf s1 z) with
          | none => rfl
          | some g =>
              refine gradOf_addGrad_ne s1 g (fun hji => ?_)
              subst hji; rw [hreq1] at hj; exact Bool.false_ne_true hj
        · rfl
      rw [step2, ← hs1]
      exact h1 s h
  | pow a p z => exact gradOf_guarded_addGrad s a _ h
  | div a b z =>
      show gradOf (if reqOf _ b then addGrad _ b _ else _) i = _
      rw [gradOf_guarded_addGrad _ b _
        (((frame_ite (reqOf s a) (frame_addGrad ..) (Frame.refl s)).2 i).2.2.1.trans h)]
      exact gradOf_guarded_addGrad s a _ h
  | exp a z => exact gradOf_guarded_addGrad s a _ h

/-- The replay loop of `backward` as a fold. -/
def replay (l : List NodeId) (s : Store) : Store :=
  l.foldl (fun st v => runBack st (backOf st v)) s

theorem backward_eq_replay (s : Store) (root : NodeId) :
    backward s root =
      replay (buildTopo s root).reverse
        (setGrad s root (Arr.onesLike (dataOf s root))) := rfl

theorem frame_replay (l : List NodeId) (s : Store) : Frame s (replay l s) := by
  induction l generalizing s with
  | nil => exact Frame.refl s
  | cons v t ih =>
      exact Frame.trans (frame_runBack s (backOf s v)) (ih (runBack s (backOf s v)))

theorem gradOf_replay_of_req_false (l : List NodeId) (s : Store) {i : NodeId}
    (h : reqOf s i = false) :
    gradOf (replay l s) i = gradOf s i := by
  induction l generalizing s with
  | nil => rfl
  | cons v t ih =>
      have h2 : reqOf (runBack s (backOf s v)) i = false :=
        ((frame_runBack s (backOf s v)).2 i).2.2.1.trans h
      exact (ih (runBack s (backOf s v)) h2).trans
        (gradOf_runBack_of_req_false s (backOf s v) h)

/-! ### Constructor shape lemmas -/

theorem getT_append_lt (s l : Store) {i : NodeId} (h : i < s.length) :
    getT (s ++ l) i = getT s i := by
  unfold getT List.getD
  rw [List.get?_eq_getElem?, List.get?_eq_getElem?, List.getElem?_append_left h]

theorem getT_snoc_self (s : Store) (o : TObj) : getT (s ++ [o]) s.length = o := by
  unfold getT List.getD
  rw [List.get?_eq_getElem?, List.getElem?_append_right (Nat.le_refl _)]
  simp

theorem set_snoc (s : Store) (o o' : TObj) :
    (s ++ [o]).set s.length o' = s ++ [o'] := by
  induction s with
  | nil => rfl
  | cons h t ih => simp [List.set, ih]

theorem setBack_snoc (s : Store) (o : TObj) (bf : BackFn) :
    setBack (s ++ [o]) s.length bf = s ++ [{ o with backfn := bf }] := by
  unfold setBack
  rw [getT_snoc_self]
  exact set_snoc ..

theorem Add_eq (s : Store) (a b : NodeId) :
    Add s a b =
      (s ++ [⟨Arr.zip (· + ·) (dataOf s a) (dataOf s b),
        Arr.zerosLike (Arr.zip (· + ·) (dataOf s a) (dataOf s b)),
        [a, b].dedup, "+", reqOf s a || reqOf s b, BackFn.add a b s.length⟩],
       s.length) := by
  simp only [Add, mkTensor, setBack_snoc]

theorem Mul_eq (s : Store) (a b : NodeId) :
    Mul s a b =
      (s ++ [⟨Arr.zip (· * ·) (dataOf s a) (dataOf s b),
        Arr.zerosLike (Arr.zip (· * ·) (dataOf s a) (dataOf s b)),
        [a, b].dedup, "*", reqOf s a || reqOf s b, BackFn.mul a b s.length⟩],
       s.length) := by
  simp only [Mul, mkTensor, setBack_snoc]

theorem Neg_eq (s : Store) (a : NodeId) :
    Neg s a =
      (s ++ [⟨Arr.map (fun x => x * (-1)) (dataOf s a),
        Arr.zerosLike (Arr.map (fun x => x * (-1)) (dataOf s a)),
        [a].dedup, "neg", reqOf s a, BackFn.neg a s.length⟩],
       s.length) := by
  simp only [Neg, mkTensor, setBack_snoc]

theorem Pow_eq (s : Store) (a : NodeId) (b : ℤ) :
    Pow s a b =
      (s ++ [⟨Arr.map (fun x => x ^ b) (dataOf s a),
        Arr.zerosLike (Arr.map (fun x => x ^ b) (dataOf s a)),
        [a].dedup, "pow", reqOf s a, BackFn.pow a b s.length⟩],
       s.length) := by
  simp only [Pow, mkTensor, setBack_snoc]

theorem Div_eq (s : Store) (a b : NodeId) :
    Div s a b =
      (s ++ [⟨Arr.zip (· / ·) (dataOf s a) (dataOf s b),
        Arr.zerosLike (Arr.zip (· / ·) (dataOf s a) (dataOf s b)),
        [a, b].dedup, "*", reqOf s a || reqOf s b, BackFn.div a b s.length⟩],
       s.length) := by
  simp only [Div, mkTensor, setBack_snoc]

theorem Exp_eq (s : Store) (expf : ℚ → ℚ) (a : NodeId) :
    Exp s expf a =
      (s ++ [⟨Arr.map expf (dataOf s a),
        Arr.zerosLike (Arr.map expf (dataOf s a)),
        [a].dedup, "exp", reqOf s a, BackFn.exp a s.length⟩],
       s.length) := by
  simp only [Exp, mkTensor, setBack_snoc]

theorem Matmul_eq (s : Store) (a b : NodeId) {d : Arr}
    (h : matmul1 (dataOf s a) (dataOf s b) = some d) :
    Matmul s a b =
      Except.ok
        (s ++ [⟨d, Arr.zerosLike d, [a, b].dedup, "@",
          reqOf s a || reqOf s b, BackFn.matmul a b s.length⟩],
         s.length) := by
  simp only [Matmul, mkTensor, h, setBack_snoc]

theorem dataOf_snoc_self (s : Store) (o : TObj) :
    dataOf (s ++ [o]) s.length = o.data := by
  unfold dataOf; rw [getT_snoc_self]

theorem reqOf_snoc_self (s : Store) (o : TObj) :
    reqOf (s ++ [o]) s.length = o.requires_grad := by
  unfold reqOf; rw [getT_snoc_self]

theorem dataOf_append (s l : Store) {i : NodeId} (h : i < s.length) :
    dataOf (s ++ l) i = dataOf s i := by
  unfold dataOf; rw [getT_append_lt _ _ h]

theorem reqOf_append (s l : Store) {i : NodeId} (h : i < s.length) :
    reqOf (s ++ l) i = reqOf s i := by
  unfold reqOf; rw [getT_append_lt _ _ h]

/-- The data produced by the `self + (-other)` composition that
`__sub__` builds over any store. -/
theorem sub_core (S : Store) (a b : NodeId) (ha : a < S.length) :
    dataOf (Add (Neg S b).1 a (Neg S b).2).1 (Add (Neg S b).1 a (Neg S b).2).2 =
      Arr.zip (· + ·) (dataOf S a)
        (Arr.map (fun x => x * (-1)) (dataOf S b)) := by
  rw [Neg_eq]
  dsimp only
  rw [Add_eq]
  dsimp only
  rw [dataOf_snoc_self, dataOf_append _ _ ha, dataOf_snoc_self]

/-! ### Claim C1: the Mul backward rule -/

/-- `a = Tensor(2., requires_grad=True)`, `b = Tensor(3., requires_grad=True)`,
`z = Mul(a, b)`. -/
def mulBugStore : Store :=
  (Mul (mkLeaf (mkLeaf [] (Arr.scalar 2) true).1 (Arr.scalar 3) true).1 0 1).1

/-- C1: the claim says `Mul`'s backward adds `a.data * result.grad` into
`b.grad`; the source adds `a.grad * result.grad` instead, reading the
accumulator it just incremented. On `z = Mul(a, b)` with `a.data = 2`,
`b.data = 3`, after `z.backward()` (so `z.grad = 1`) the code leaves
`b.grad = 3` where the claimed rule `a.data * result.grad` gives `2`. -/
theorem mul_backward_reads_accumulator :
    gradOf (backward mulBugStore 2) 1 = Arr.scalar 3 ∧
    Arr.zip (· * ·) (dataOf mulBugStore 0) (gradOf (backward mulBugStore 2) 2) =
      Arr.scalar 2 ∧
    Arr.scalar (3 : ℚ) ≠ Arr.scalar 2 := by with_unfolding_all decide

/-! ### Claim C7: nodes without `requires_grad` receive no gradient -/

/-- C7 (amended): no backward closure writes into a node whose
`requires_grad` is false, and every such *non-root* node keeps its
all-zero gradient across `backward`; only the root is exempt, because
the seeding step overwrites the root's grad with ones unconditionally. -/
theorem no_grad_write_without_flag (s : Store) (root v : NodeId)
    (hreq : reqOf s v = false) (hne : v ≠ root)
    (hz : gradOf s v = Arr.zerosLike (dataOf s v)) :
    gradOf (backward s root) v = Arr.zerosLike (dataOf (backward s root) v) ∧
    (∀ (t : Store) (bf : BackFn), reqOf t v = false →
      gradOf (runBack t bf) v = gradOf t v) := by
  constructor
  · rw [backward_eq_replay]
    have hfr : Frame s (setGrad s root (Arr.onesLike (dataOf s root))) := frame_setGrad ..
    have h1 : reqOf (setGrad s root (Arr.onesLike (dataOf s root))) v = false :=
      ((hfr.2 v).2.2.1).trans hreq
    rw [gradOf_replay_of_req_false _ _ h1,
      gradOf_setGrad_ne _ _ (fun h => hne h.symm), hz]
    have hdat : dataOf (replay (buildTopo s root).reverse
        (setGrad s root (Arr.onesLike (dataOf s root)))) v = dataOf s v := by
      rw [((frame_replay _ _).2 v).1, (hfr.2 v).1]
    rw [hdat]
  · intro t bf ht
    exact gradOf_runBack_of_req_false t bf ht

/-- `a = Tensor(2., requires_grad=False)`, `b = Tensor(3., requires_grad=True)`,
`z = Add(a, b)`. -/
def addMixedStore : Store :=
  (Add (mkLeaf (mkLeaf [] (Arr.scalar 2) false).1 (Arr.scalar 3) true).1 0 1).1

theorem no_grad_write_without_flag_witness :
    (reqOf addMixedStore 0 = false ∧ (0 : NodeId) ≠ 2 ∧
      gradOf addMixedStore 0 = Arr.zerosLike (dataOf addMixedStore 0)) ∧
    (gradOf (backward addMixedStore 2) 0 =
        Arr.zerosLike (dataOf (backward addMixedStore 2) 0) ∧
      (∀ (t : Store) (bf : BackFn), reqOf t 0 = false →
        gradOf (runBack t bf) 0 = gradOf t 0)) :=
  ⟨⟨by with_unfolding_all decide, by with_unfolding_all decide, by with_unfolding_all decide⟩,
    no_grad_write_without_flag addMixedStore 2 0 (by with_unfolding_all decide) (by with_unfolding_all decide) (by with_unfolding_all decide)⟩

/-- A lone leaf with `requires_grad=False`. -/
def noGradLeafStore : Store := (mkLeaf [] (Arr.scalar 5) false).1

/-! ### Claim C4: calling backward twice -/

/-- `a = Tensor(1., requires_grad=True)`, `m = Neg(a)`, `r = Neg(m)`. -/
def negChainStore : Store :=
  (Neg (Neg (mkLeaf [] (Arr.scalar 1) true).1 0).1 1).1

/-- C4 counterexample: on `r = Neg(Neg(a))`, the first `backward` leaves
`a.grad = 1` and `r.grad = 1`; a second `backward` leaves `a.grad = 3`
(not the doubled `2`: the un-reset intermediate accumulator compounds)
and `r.grad = 1` (not `2`: the seed overwrites the root's grad). -/
theorem second_backward_not_doubling :
    gradOf (backward negChainStore 2) 0 = Arr.scalar 1 ∧
    gradOf (backward (backward negChainStore 2) 2) 0 = Arr.scalar 3 ∧
    gradOf (backward negChainStore 2) 2 = Arr.scalar 1 ∧
    gradOf (backward (backward negChainStore 2) 2) 2 = Arr.scalar 1 ∧
    Arr.scalar (3 : ℚ) ≠ Arr.zip (· + ·) (Arr.scalar 1) (Arr.scalar 1) ∧
    Arr.scalar (1 : ℚ) ≠ Arr.zip (· + ·) (Arr.scalar 1) (Arr.scalar 1) := by
  with_unfolding_all decide

/-- The depth-one graph `z = Add(a, b)` over scalar leaves. -/
def addPairStore (q r : ℚ) (ra rb : Bool) : Store :=
  (Add (mkLeaf (mkLeaf [] (Arr.scalar q) ra).1 (Arr.scalar r) rb).1 0 1).1

/-- The store of `addPairStore` with prescribed gradient values
(a snapshot shape used to state intermediate evaluation steps). -/
def addPairList (q r : ℚ) (ra rb : Bool) (ga gb gz : ℚ) : Store :=
  [⟨Arr.scalar q, Arr.scalar ga, [], "", ra, BackFn.none⟩,
   ⟨Arr.scalar r, Arr.scalar gb, [], "", rb, BackFn.none⟩,
   ⟨Arr.scalar (q + r), Arr.scalar gz, [0, 1], "+", ra || rb, BackFn.add 0 1 2⟩]

/-- C4 (amended): a second `backward` re-seeds the root's grad to ones
instead of doubling it, and replays against the un-reset accumulators;
in a depth-one graph `z = Add(a, b)` over scalar leaves this doubles
each leaf's grad while the root's grad stays at ones, but in deeper
graphs the compounding exceeds doubling (see the `Neg(Neg(a))`
counterexample, where the leaf reaches 3x). -/
theorem second_backward_depth_one_doubles_leaves (q r : ℚ) (ra rb : Bool) :
    gradOf (backward (backward (addPairStore q r ra rb) 2) 2) 0 =
      Arr.zip (· + ·) (gradOf (backward (addPairStore q r ra rb) 2) 0)
        (gradOf (backward (addPairStore q r ra rb) 2) 0) ∧
    gradOf (backward (backward (addPairStore q r ra rb) 2) 2) 1 =
      Arr.zip (· + ·) (gradOf (backward (addPairStore q r ra rb) 2) 1)
        (gradOf (backward (addPairStore q r ra rb) 2) 1) ∧
    gradOf (backward (addPairStore q r ra rb) 2) 2 =
      Arr.onesLike (dataOf (addPairStore q r ra rb) 2) ∧
    gradOf (backward (backward (addPairStore q r ra rb) 2) 2) 2 =
      Arr.onesLike (dataOf (addPairStore q r ra rb) 2) := by
  cases ra <;> cases rb
  · have h1 : backward (addPairStore q r false false) 2 =
        addPairList q r false false 0 0 1 := by with_unfolding_all rfl
    have h2 : backward (addPairList q r false false 0 0 1) 2 =
        addPairList q r false false 0 0 1 := by with_unfolding_all rfl
    rw [h1, h2]
    exact ⟨by with_unfolding_all rfl, by with_unfolding_all rfl,
      by with_unfolding_all rfl, by with_unfolding_all rfl⟩
  · have h1 : backward (addPairStore q r false true) 2 =
        addPairList q r false true 0 1 1 := by with_unfolding_all rfl
    have h2 : backward (addPairList q r false true 0 1 1) 2 =
        addPairList q r false true 0 2 1 := by with_unfolding_all rfl
    rw [h1, h2]
    exact ⟨by with_unfolding_all rfl, by with_unfolding_all rfl,
      by with_unfolding_all rfl, by with_unfolding_all rfl⟩
  · have h1 : backward (addPairStore q r true false) 2 =
        addPairList q r true false 1 0 1 := by with_unfolding_all rfl
    have h2 : backward (addPairList q r true false 1 0 1) 2 =
        addPairList q r true false 2 0 1 := by with_unfolding_all rfl
    rw [h1, h2]
    exact ⟨by with_unfolding_all rfl, by with_unfolding_all rfl,
      by with_unfolding_all rfl, by with_unfolding_all rfl⟩
  · have h1 : backward (addPairStore q r true true) 2 =
        addPairList q r true true 1 1 1 := by with_unfolding_all rfl
    have h2 : backward (addPairList q r true true 1 1 1) 2 =
        addPairList q r true true 2 2 1 := by with_unfolding_all rfl
    rw [h1, h2]
    exact ⟨by with_unfolding_all rfl, by with_unfolding_all rfl,
      by with_unfolding_all rfl, by with_unfolding_all rfl⟩

/-! ### Claim C5: gradient accumulation across shared operands -/

/-- `c`, `x` scalar leaves with `requires_grad=True`; `z1 = Mul(c, x)`,
`z2 = Mul(c, x)`, `root = Add(z1, z2)`: `x` is an operand of the two
distinct consumers `z1` and `z2`. -/
def sharedMulStore : Store :=
  (Add (Mul (Mul (mkLeaf (mkLeaf [] (Arr.scalar 1) true).1
    (Arr.scalar 1) true).1 0 1).1 0 1).1 2 3).1

/-- The same consumer in isolation: `c`, `x` leaves, `z1 = Mul(c, x)`. -/
def singleMulStore : Store :=
  (Mul (mkLeaf (mkLeaf [] (Arr.scalar 1) true).1 (Arr.scalar 1) true).1 0 1).1

/-- C5: with `c.data = x.data = 1`, each consumer run independently
contributes `1` to `x.grad` (shown on the isolated graph), so the claim
predicts `x.grad = 2` after backward on `root = Add(Mul(c,x), Mul(c,x))`;
the code produces `x.grad = 3`, because `Mul`'s backward feeds `c`'s
already-accumulated grad (holding the other consumer's contribution)
into `x`'s update. -/
theorem shared_operand_grad_not_sum_of_contributions :
    gradOf (backward sharedMulStore 4) 1 = Arr.scalar 3 ∧
    gradOf (backward singleMulStore 2) 1 = Arr.scalar 1 ∧
    Arr.scalar (3 : ℚ) ≠ Arr.zip (· + ·) (Arr.scalar 1) (Arr.scalar 1) := by
  with_unfolding_all decide

/-- C7 counterexample: `backward` on a root with `requires_grad=False`
still overwrites the root's grad with ones, so its grad does not remain
the all-zeros array. -/
theorem root_grad_seeded_despite_no_flag :
    reqOf noGradLeafStore 0 = false ∧
    gradOf (backward noGradLeafStore 0) 0 = Arr.scalar 1 ∧
    Arr.scalar (1 : ℚ) ≠ Arr.zerosLike (dataOf noGradLeafStore 0) := by with_unfolding_all decide

/-! ### Claim C10: reflected subtraction -/

/-- Adding the elementwise negation of a scalar is elementwise
subtraction of that scalar. -/
theorem zip_add_map_negone (a : Arr) (c : ℚ) :
    Arr.zip (· + ·) a (Arr.map (fun x => x * (-1)) (Arr.scalar c)) =
      Arr.zip (· - ·) a (Arr.scalar c) := by
  cases a with
  | scalar q => simp only [Arr.map, Arr.zip]; ring_nf
  | vec xs =>
      simp only [Arr.map, Arr.zip, Arr.vec.injEq]
      congr 1
      funext x
      ring

/-- `t = Tensor(5., requires_grad=True)`. -/
def rsubDemoStore : Store := (mkLeaf [] (Arr.scalar 5) true).1

/-- C10: `c - t` dispatches to `t.__rsub__(c)`, which returns
`self - other` without swapping the operands, so the forward data is
`t.data - c`; on `t.data = 5`, `c = 3` it yields `2`, not `3 - 5`. -/
theorem rsub_returns_self_minus_other (s : Store) (t : NodeId) (c : ℤ)
    (ht : t < s.length) :
    dataOf (tensor_rsub s t (PyVal.num c)).1 (tensor_rsub s t (PyVal.num c)).2 =
      Arr.zip (· - ·) (dataOf s t) (Arr.scalar (c : ℚ)) ∧
    dataOf (tensor_rsub rsubDemoStore 0 (PyVal.num 3)).1
      (tensor_rsub rsubDemoStore 0 (PyVal.num 3)).2 = Arr.scalar 2 ∧
    Arr.scalar (2 : ℚ) ≠ Arr.scalar ((3 : ℚ) - 5) := by
  refine ⟨?_, by with_unfolding_all rfl, by with_unfolding_all decide⟩
  have ht' : t < (s ++ [(⟨Arr.scalar (c : ℚ), Arr.scalar 0, [], "", false,
      BackFn.none⟩ : TObj)]).length := by
    simpa using Nat.lt_succ_of_lt ht
  have key := sub_core
    (s ++ [⟨Arr.scalar (c : ℚ), Arr.scalar 0, [], "", false, BackFn.none⟩])
    t s.length ht'
  rw [dataOf_append _ _ ht, dataOf_snoc_self, zip_add_map_negone] at key
  exact key

theorem rsub_returns_self_minus_other_witness :
    (0 : NodeId) < rsubDemoStore.length ∧
    (dataOf (tensor_rsub rsubDemoStore 0 (PyVal.num 3)).1
        (tensor_rsub rsubDemoStore 0 (PyVal.num 3)).2 =
      Arr.zip (· - ·) (dataOf rsubDemoStore 0) (Arr.scalar ((3 : ℤ) : ℚ)) ∧
    dataOf (tensor_rsub rsubDemoStore 0 (PyVal.num 3)).1
      (tensor_rsub rsubDemoStore 0 (PyVal.num 3)).2 = Arr.scalar 2 ∧
    Arr.scalar (2 : ℚ) ≠ Arr.scalar ((3 : ℚ) - 5)) :=
  ⟨by decide, rsub_returns_self_minus_other rsubDemoStore 0 3 (by decide)⟩

/-! ### Claim C8: raw-operand coercion in the binary dunders -/

/-- `t = Tensor(np.array([1.]), requires_grad=True)`. -/
def matmulRawStore : Store := (mkLeaf [] (Arr.vec [1]) true).1

/-- C8 counterexample: `t @ 3` does not produce a node; `__matmul__`
passes the raw `3` straight to `Matmul`, whose read of
`other.requires_grad` raises an AttributeError. -/
theorem matmul_raw_operand_raises :
    tensor_matmul matmulRawStore 0 (PyVal.num 3) =
      Except.error PyErr.attributeError := rfl

/-- C8 (amended): `__add__`, `__mul__`, `__sub__` and `__truediv__`
coerce a raw numeric operand into a leaf tensor and compute with its
value, but `__matmul__` performs no coercion and fails with an
AttributeError on a raw numeric operand. -/
theorem binary_dunders_coerce_except_matmul (s : Store) (i : NodeId) (n : ℤ)
    (hi : i < s.length) :
    dataOf (tensor_add s i (PyVal.num n)).1 (tensor_add s i (PyVal.num n)).2 =
      Arr.zip (· + ·) (dataOf s i) (Arr.scalar (n : ℚ)) ∧
    dataOf (tensor_mul s i (PyVal.num n)).1 (tensor_mul s i (PyVal.num n)).2 =
      Arr.zip (· * ·) (dataOf s i) (Arr.scalar (n : ℚ)) ∧
    dataOf (tensor_sub s i (PyVal.num n)).1 (tensor_sub s i (PyVal.num n)).2 =
      Arr.zip (· - ·) (dataOf s i) (Arr.scalar (n : ℚ)) ∧
    dataOf (tensor_div s i (PyVal.num n)).1 (tensor_div s i (PyVal.num n)).2 =
      Arr.zip (· / ·) (dataOf s i) (Arr.scalar (n : ℚ)) ∧
    tensor_matmul s i (PyVal.num n) = Except.error PyErr.attributeError := by
  have ht' : i < (s ++ [(⟨Arr.scalar (n : ℚ), Arr.scalar 0, [], "", false,
      BackFn.none⟩ : TObj)]).length := by
    simpa using Nat.lt_succ_of_lt hi
  refine ⟨?_, ?_, ?_, ?_, rfl⟩
  · show dataOf (Add (s ++ [_]) i s.length).1 (Add (s ++ [_]) i s.length).2 = _
    rw [Add_eq]
    dsimp only
    rw [dataOf_snoc_self, dataOf_append _ _ hi, dataOf_snoc_self]
  · show dataOf (Mul (s ++ [_]) i s.length).1 (Mul (s ++ [_]) i s.length).2 = _
    rw [Mul_eq]
    dsimp only
    rw [dataOf_snoc_self, dataOf_append _ _ hi, dataOf_snoc_self]
  · have key := sub_core
      (s ++ [⟨Arr.scalar (n : ℚ), Arr.scalar 0, [], "", false, BackFn.none⟩])
      i s.length ht'
    rw [dataOf_append _ _ hi, dataOf_snoc_self, zip_add_map_negone] at key
    exact key
  · show dataOf (Div (s ++ [_]) i s.length).1 (Div (s ++ [_]) i s.length).2 = _
    rw [Div_eq]
    dsimp only
    rw [dataOf_snoc_self, dataOf_append _ _ hi, dataOf_snoc_self]

theorem binary_dunders_coerce_except_matmul_witness :
    (0 : NodeId) < rsubDemoStore.length ∧
    (dataOf (tensor_add rsubDemoStore 0 (PyVal.num 3)).1
        (tensor_add rsubDemoStore 0 (PyVal.num 3)).2 =
      Arr.zip (· + ·) (dataOf rsubDemoStore 0) (Arr.scalar ((3 : ℤ) : ℚ)) ∧
    dataOf (tensor_mul rsubDemoStore 0 (PyVal.num 3)).1
        (tensor_mul rsubDemoStore 0 (PyVal.num 3)).2 =
      Arr.zip (· * ·) (dataOf rsubDemoStore 0) (Arr.scalar ((3 : ℤ) : ℚ)) ∧
    dataOf (tensor_sub rsubDemoStore 0 (PyVal.num 3)).1
        (tensor_sub rsubDemoStore 0 (PyVal.num 3)).2 =
      Arr.zip (· - ·) (dataOf rsubDemoStore 0) (Arr.scalar ((3 : ℤ) : ℚ)) ∧
    dataOf (tensor_div rsubDemoStore 0 (PyVal.num 3)).1
        (tensor_div rsubDemoStore 0 (PyVal.num 3)).2 =
      Arr.zip (· / ·) (dataOf rsubDemoStore 0) (Arr.scalar ((3 : ℤ) : ℚ)) ∧
    tensor_matmul rsubDemoStore 0 (PyVal.num 3) =
      Except.error PyErr.attributeError) :=
  ⟨by decide, binary_dunders_coerce_except_matmul rsubDemoStore 0 3 (by decide)⟩

/-! ### Claim C9: Pow's exponent check and gradient rule -/

theorem getT_out (s : Store) {i : NodeId} (h : s.length ≤ i) :
    getT s i = defaultT := by
  unfold getT List.getD
  rw [List.get?_eq_getElem?, List.getElem?_eq_none h]
  rfl

/-- A node with its flag set is a real entry of the store (the dangling
default has the flag off). -/
theorem lt_length_of_req_true {s : Store} {i : NodeId} (h : reqOf s i = true) :
    i < s.length := by
  by_contra hh
  rw [reqOf, getT_out s (Nat.le_of_not_lt hh)] at h
  exact Bool.false_ne_true h

theorem gradOf_addGrad_self (s : Store) (x : Arr) {i : NodeId} (h : i < s.length) :
    gradOf (addGrad s i x) i = Arr.zip (· + ·) (gradOf s i) x := by
  unfold gradOf
  rw [getT_addGrad, if_pos ⟨rfl, h⟩]
  rfl

/-- C9: through the public `__pow__` surface, a non-scalar exponent (a
tensor or a raw list) fails the `isinstance(other, (int, float))` check
at construction time, and a scalar exponent `p` succeeds with forward
data `a.data ** p` elementwise; when `a.requires_grad`, invoking the
result's backward closure adds `p * a.data^(p-1) * result.grad` into
`a.grad`. -/
theorem pow_scalar_exponent_only (s t' : Store) (a : NodeId) (p : ℤ)
    (t : NodeId) (xs : List ℚ) (z : NodeId)
    (hreq : reqOf t' a = true) :
    tensor_pow s a (PyVal.tensor t) = Except.error PyErr.invalidArgument ∧
    tensor_pow s a (PyVal.pylist xs) = Except.error PyErr.invalidArgument ∧
    tensor_pow s a (PyVal.num p) = Except.ok (Pow s a p) ∧
    dataOf (Pow s a p).1 (Pow s a p).2 =
      Arr.map (fun x => x ^ p) (dataOf s a) ∧
    gradOf (runBack t' (BackFn.pow a p z)) a =
      Arr.zip (· + ·) (gradOf t' a)
        (Arr.zip (· * ·)
          (Arr.zip (· * ·) (Arr.scalar (p : ℚ))
            (Arr.map (fun x => x ^ (p - 1)) (dataOf t' a)))
          (gradOf t' z)) := by
  refine ⟨rfl, rfl, rfl, ?_, ?_⟩
  · rw [Pow_eq]
    dsimp only
    rw [dataOf_snoc_self]
  · show gradOf (if reqOf t' a then addGrad t' a _ else t') a = _
    rw [if_pos hreq]
    exact gradOf_addGrad_self t' _ (lt_length_of_req_true hreq)

theorem pow_scalar_exponent_only_witness :
    reqOf rsubDemoStore 0 = true ∧
    (tensor_pow rsubDemoStore 0 (PyVal.tensor 0) =
        Except.error PyErr.invalidArgument ∧
    tensor_pow rsubDemoStore 0 (PyVal.pylist [2]) =
        Except.error PyErr.invalidArgument ∧
    tensor_pow rsubDemoStore 0 (PyVal.num 3) =
        Except.ok (Pow rsubDemoStore 0 3) ∧
    dataOf (Pow rsubDemoStore 0 3).1 (Pow rsubDemoStore 0 3).2 =
      Arr.map (fun x => x ^ (3 : ℤ)) (dataOf rsubDemoStore 0) ∧
    gradOf (runBack rsubDemoStore (BackFn.pow 0 3 0)) 0 =
      Arr.zip (· + ·) (gradOf rsubDemoStore 0)
        (Arr.zip (· * ·)
          (Arr.zip (· * ·) (Arr.scalar ((3 : ℤ) : ℚ))
            (Arr.map (fun x => x ^ ((3 : ℤ) - 1)) (dataOf rsubDemoStore 0)))
          (gradOf rsubDemoStore 0))) :=
  ⟨by decide, pow_scalar_exponent_only rsubDemoStore rsubDemoStore 0 3 0 [2] 0
    (by decide)⟩

/-! ### Claim C6: requires_grad propagation -/

/-- C6: every operation constructor sets the result's `requires_grad`
to the OR of its operands' flags (the single operand's flag for the
unary `Neg`, `Pow`, `Exp`); `Sub`, derived as `Add(a, Neg(b))`, and the
successful `Matmul` follow the same rule. -/
theorem requires_grad_or_propagation (s : Store) (a b : NodeId)
    (expf : ℚ → ℚ) (p : ℤ) (ha : a < s.length) :
    reqOf (Add s a b).1 (Add s a b).2 = (reqOf s a || reqOf s b) ∧
    reqOf (Mul s a b).1 (Mul s a b).2 = (reqOf s a || reqOf s b) ∧
    reqOf (Div s a b).1 (Div s a b).2 = (reqOf s a || reqOf s b) ∧
    reqOf (Neg s a).1 (Neg s a).2 = reqOf s a ∧
    reqOf (Pow s a p).1 (Pow s a p).2 = reqOf s a ∧
    reqOf (Exp s expf a).1 (Exp s expf a).2 = reqOf s a ∧
    (∀ s' z, Matmul s a b = Except.ok (s', z) →
      reqOf s' z = (reqOf s a || reqOf s b)) ∧
    reqOf (tensor_sub s a (PyVal.tensor b)).1
      (tensor_sub s a (PyVal.tensor b)).2 = (reqOf s a || reqOf s b) := by
  refine ⟨?_, ?_, ?_, ?_, ?_, ?_, ?_, ?_⟩
  · rw [Add_eq]; dsimp only; rw [reqOf_snoc_self]
  · rw [Mul_eq]; dsimp only; rw [reqOf_snoc_self]
  · rw [Div_eq]; dsimp only; rw [reqOf_snoc_self]
  · rw [Neg_eq]; dsimp only; rw [reqOf_snoc_self]
  · rw [Pow_eq]; dsimp only; rw [reqOf_snoc_self]
  · rw [Exp_eq]; dsimp only; rw [reqOf_snoc_self]
  · intro s' z h
    cases hm : matmul1 (dataOf s a) (dataOf s b) with
    | none =>
        rw [Matmul, hm] at h
        exact absurd h (by simp)
    | some d =>
        rw [Matmul_eq s a b hm] at h
        obtain ⟨h1, h2⟩ := Prod.mk.injEq .. ▸ Except.ok.inj h
        subst h1
        subst h2
        rw [reqOf_snoc_self]
  · show reqOf (Add (Neg s b).1 a (Neg s b).2).1 (Add (Neg s b).1 a (Neg s b).2).2 = _
    rw [Neg_eq]
    dsimp only
    rw [Add_eq]
    dsimp only
    rw [reqOf_snoc_self, reqOf_append _ _ ha, reqOf_snoc_self]

/-- Two 1-element vector leaves, so that `Matmul` succeeds. -/
def vecPairStore : Store :=
  (mkLeaf (mkLeaf [] (Arr.vec [1]) true).1 (Arr.vec [2]) false).1

theorem requires_grad_or_propagation_witness :
    (0 : NodeId) < vecPairStore.length ∧
    (reqOf (Add vecPairStore 0 1).1 (Add vecPairStore 0 1).2 =
        (reqOf vecPairStore 0 || reqOf vecPairStore 1) ∧
    reqOf (Mul vecPairStore 0 1).1 (Mul vecPairStore 0 1).2 =
        (reqOf vecPairStore 0 || reqOf vecPairStore 1) ∧
    reqOf (Div vecPairStore 0 1).1 (Div vecPairStore 0 1).2 =
        (reqOf vecPairStore 0 || reqOf vecPairStore 1) ∧
    reqOf (Neg vecPairStore 0).1 (Neg vecPairStore 0).2 = reqOf vecPairStore 0 ∧
    reqOf (Pow vecPairStore 0 2).1 (Pow vecPairStore 0 2).2 =
        reqOf vecPairStore 0 ∧
    reqOf (Exp vecPairStore id 0).1 (Exp vecPairStore id 0).2 =
        reqOf vecPairStore 0 ∧
    (∀ s' z, Matmul vecPairStore 0 1 = Except.ok (s', z) →
      reqOf s' z = (reqOf vecPairStore 0 || reqOf vecPairStore 1)) ∧
    reqOf (tensor_sub vecPairStore 0 (PyVal.tensor 1)).1
      (tensor_sub vecPairStore 0 (PyVal.tensor 1)).2 =
        (reqOf vecPairStore 0 || reqOf vecPairStore 1)) :=
  ⟨by decide, requires_grad_or_propagation vecPairStore 0 1 id 2 (by decide)⟩

/-! ### Claim C3: Matmul forward and backward over 2-d arrays -/

theorem mem_zipWith {α β γ : Type} {f : α → β → γ} :
    ∀ {l1 : List α} {l2 : List β} {x : γ}, x ∈ List.zipWith f l1 l2 →
      ∃ a ∈ l1, ∃ b ∈ l2, x = f a b := by
  intro l1
  induction l1 with
  | nil => intro l2 x h; simp [List.zipWith] at h
  | cons a t ih =>
      intro l2 x h
      cases l2 with
      | nil => simp [List.zipWith] at h
      | cons b t2 =>
          rw [List.zipWith_cons_cons, List.mem_cons] at h
          rcases h with h | h
          · exact ⟨a, List.mem_cons_self .., b, List.mem_cons_self .., h⟩
          · obtain ⟨a', ha', b', hb', hx⟩ := ih h
            exact ⟨a', List.mem_cons_of_mem _ ha', b', List.mem_cons_of_mem _ hb', hx⟩

namespace NdMat

theorem transpose_wf {A : NdMat} (h : A.Wf) : A.transpose.Wf := by
  constructor
  · simp [transpose]
  · intro r hr
    simp only [transpose, List.mem_map] at hr
    obtain ⟨j, _, rfl⟩ := hr
    simp [col, transpose, h.1]

theorem matmul_wf {A : NdMat} (B : NdMat) (h : A.Wf) : (A.matmul B).Wf := by
  constructor
  · simp [matmul, h.1]
  · intro r hr
    simp only [matmul, List.mem_map] at hr
    obtain ⟨row, _, rfl⟩ := hr
    simp [matmul]

theorem add_wf {A B : NdMat} (hA : A.Wf) (hB : B.Wf) (hr : B.rows = A.rows)
    (hc : B.cols = A.cols) : (A.add B).Wf := by
  constructor
  · simp [add, hA.1, hB.1, hr]
  · intro r hmem
    simp only [add] at hmem
    obtain ⟨r1, hr1, r2, hr2, rfl⟩ := mem_zipWith hmem
    simp [add, hA.2 r1 hr1, hB.2 r2 hr2, hc]

end NdMat

/-- C3: for operands of shapes `(m, k)` and `(k, n)`, the forward data
of `Matmul` is `a.data @ b.data` of shape `(m, n)`, and the backward
closure adds `z.grad @ b.data.T` into `a.grad` (when `a.requires_grad`)
and `a.data.T @ z.grad` into `b.grad` (when `b.requires_grad`), the
accumulated gradients keeping shapes `(m, k)` and `(k, n)`. -/
theorem matmul_forward_backward_shapes (m k n : Nat) (a b z : MTensor)
    (hadw : a.data.Wf) (har : a.data.rows = m) (hac : a.data.cols = k)
    (_hbdw : b.data.Wf) (hbr : b.data.rows = k) (hbc : b.data.cols = n)
    (hagw : a.grad.Wf) (hagr : a.grad.rows = m) (hagc : a.grad.cols = k)
    (hbgw : b.grad.Wf) (hbgr : b.grad.rows = k) (hbgc : b.grad.cols = n)
    (hzgw : z.grad.Wf) (hzgr : z.grad.rows = m) (hzgc : z.grad.cols = n) :
    (MatmulF a b).data = a.data.matmul b.data ∧
    (MatmulF a b).requires_grad = (a.requires_grad || b.requires_grad) ∧
    (MatmulF a b).data.Wf ∧
    (MatmulF a b).data.rows = m ∧ (MatmulF a b).data.cols = n ∧
    (a.requires_grad = true →
      (matmulBack a b z).1.grad = a.grad.add (z.grad.matmul b.data.transpose) ∧
      (matmulBack a b z).1.grad.Wf ∧
      (matmulBack a b z).1.grad.rows = m ∧ (matmulBack a b z).1.grad.cols = k) ∧
    (b.requires_grad = true →
      (matmulBack a b z).2.grad = b.grad.add (a.data.transpose.matmul z.grad) ∧
      (matmulBack a b z).2.grad.Wf ∧
      (matmulBack a b z).2.grad.rows = k ∧ (matmulBack a b z).2.grad.cols = n) := by
  refine ⟨rfl, rfl, NdMat.matmul_wf _ hadw, har, hbc, ?_, ?_⟩
  · intro hra
    have hge : (matmulBack a b z).1.grad =
        a.grad.add (z.grad.matmul b.data.transpose) := by
      show (if a.requires_grad then _ else a).grad = _
      rw [if_pos hra]
    refine ⟨hge, ?_, ?_, ?_⟩
    · rw [hge]
      refine NdMat.add_wf hagw (NdMat.matmul_wf _ hzgw) ?_ ?_
      · show z.grad.rows = a.grad.rows
        rw [hzgr, hagr]
      · show b.data.transpose.cols = a.grad.cols
        show b.data.rows = a.grad.cols
        rw [hbr, hagc]
    · rw [hge]; show a.grad.rows = m; exact hagr
    · rw [hge]; show a.grad.cols = k; exact hagc
  · intro hrb
    have hge : (matmulBack a b z).2.grad =
        b.grad.add (a.data.transpose.matmul z.grad) := by
      show (if b.requires_grad then _ else b).grad = _
      rw [if_pos hrb]
    refine ⟨hge, ?_, ?_, ?_⟩
    · rw [hge]
      refine NdMat.add_wf hbgw (NdMat.matmul_wf _ (NdMat.transpose_wf hadw)) ?_ ?_
      · show a.data.transpose.rows = b.grad.rows
        show a.data.cols = b.grad.rows
        rw [hac, hbgr]
      · show z.grad.cols = b.grad.cols
        rw [hzgc, hbgc]
    · rw [hge]; show b.grad.rows = k; exact hbgr
    · rw [hge]; show b.grad.cols = n; exact hbgc

/-- A 1x1 operand, a 1x1 operand and a result tensor for the witness. -/
def mtA : MTensor := ⟨⟨1, 1, [[2]]⟩, ⟨1, 1, [[0]]⟩, true⟩

def mtB : MTensor := ⟨⟨1, 1, [[3]]⟩, ⟨1, 1, [[0]]⟩, true⟩

def mtZ : MTensor := ⟨⟨1, 1, [[6]]⟩, ⟨1, 1, [[1]]⟩, true⟩

theorem matmul_forward_backward_shapes_witness :
    (mtA.data.Wf ∧ mtA.data.rows = 1 ∧ mtA.data.cols = 1 ∧
      mtB.data.Wf ∧ mtZ.grad.Wf) ∧
    ((MatmulF mtA mtB).data = mtA.data.matmul mtB.data ∧
    (MatmulF mtA mtB).requires_grad = (mtA.requires_grad || mtB.requires_grad) ∧
    (MatmulF mtA mtB).data.Wf ∧
    (MatmulF mtA mtB).data.rows = 1 ∧ (MatmulF mtA mtB).data.cols = 1 ∧
    (mtA.requires_grad = true →
      (matmulBack mtA mtB mtZ).1.grad =
        mtA.grad.add (mtZ.grad.matmul mtB.data.transpose) ∧
      (matmulBack mtA mtB mtZ).1.grad.Wf ∧
      (matmulBack mtA mtB mtZ).1.grad.rows = 1 ∧
      (matmulBack mtA mtB mtZ).1.grad.cols = 1) ∧
    (mtB.requires_grad = true →
      (matmulBack mtA mtB mtZ).2.grad =
        mtB.grad.add (mtA.data.transpose.matmul mtZ.grad) ∧
      (matmulBack mtA mtB mtZ).2.grad.Wf ∧
      (matmulBack mtA mtB mtZ).2.grad.rows = 1 ∧
      (matmulBack mtA mtB mtZ).2.grad.cols = 1)) :=
  ⟨⟨by decide, by decide, by decide, by decide, by decide⟩,
    matmul_forward_backward_shapes 1 1 1 mtA mtB mtZ
      (by decide) (by decide) (by decide) (by decide) (by decide) (by decide)
      (by decide) (by decide) (by decide) (by decide) (by decide) (by decide)
      (by decide) (by decide) (by decide)⟩

/-! ### Claim C2: the topological order and the backward replay

`build_topo` is a depth-first search whose recorded order is a
post-order of the children relation. The development below proves, for
any store whose children carry smaller indices than their parents (true
of every store the constructors build), that the recorded list contains
each reachable node exactly once, lists every node after all of its
children, and that `backward` is exactly: record, seed ones, replay
reversed. -/

/-- `Reach s a b`: `b` is reachable from `a` along the children
relation (reflexively). -/
inductive Reach (s : Store) : NodeId → NodeId → Prop where
  | refl (v : NodeId) : Reach s v v
  | head {v c x : NodeId} : c ∈ prevOf s v → Reach s c x → Reach s v x

/-- Every child has a smaller index than its parent: the form of
acyclicity every store built by the operation constructors enjoys,
since a constructor only references already-existing nodes. -/
def WFStore (s : Store) : Prop :=
  ∀ i, i < s.length → ∀ c ∈ prevOf s i, c < i

instance (s : Store) : Decidable (WFStore s) := by
  unfold WFStore; infer_instance

theorem prevOf_out (s : Store) {i : NodeId} (h : s.length ≤ i) :
    prevOf s i = [] := by
  rw [prevOf, getT_out s h]; rfl

theorem WFStore.all {s : Store} (hwf : WFStore s) :
    ∀ v, ∀ c ∈ prevOf s v, c < v := by
  intro v c hc
  by_cases h : v < s.length
  · exact hwf v h c hc
  · rw [prevOf_out s (Nat.le_of_not_lt h)] at hc
    exact absurd hc (List.not_mem_nil c)

/-- The DFS state: `(visited, topo)`. -/
abbrev DfsSt := List NodeId × List NodeId

/-- The recorded list is closed under children, children first: every
entry's children already occur among the strictly earlier entries. -/
def Closed (s : Store) (topo : List NodeId) : Prop :=
  ∀ n (h : n < topo.length), ∀ c ∈ prevOf s (topo[n]), c ∈ topo.take n

/-- The DFS loop invariant: the recorded list has no duplicates, is
contained in the visited set and is child-closed. -/
def Inv (s : Store) (st : DfsSt) : Prop :=
  st.2.Nodup ∧ (∀ x ∈ st.2, x ∈ st.1) ∧ Closed s st.2

theorem Closed.mem {s : Store} {topo : List NodeId} (h : Closed s topo) :
    ∀ v ∈ topo, ∀ c ∈ prevOf s v, c ∈ topo := by
  intro v hv c hc
  obtain ⟨n, hn, rfl⟩ := List.getElem_of_mem hv
  exact List.take_subset n topo (h n hn c hc)

theorem visit_zero (s : Store) (v : NodeId) (st : DfsSt) :
    visit s 0 v st = st := rfl

theorem visit_succ (s : Store) (f : Nat) (v : NodeId) (st : DfsSt) :
    visit s (f + 1) v st =
      if v ∈ st.1 then st
      else
        (((prevOf s v).foldl (fun acc c => visit s f c acc) (v :: st.1, st.2)).1,
         ((prevOf s v).foldl (fun acc c => visit s f c acc) (v :: st.1, st.2)).2
           ++ [v]) := rfl

/-- What one `build_topo(v)` call guarantees: the recorded list grows by
a block `Δ` of previously unvisited nodes, the visited set grows by
exactly that block (so the set of visited-but-unrecorded "gray" nodes is
unchanged), the block is reachable from `v`, the invariant is preserved
and `v` ends up visited. -/
def StepConcl (s : Store) (v : NodeId) (st st' : DfsSt) : Prop :=
  ∃ Δ, st'.2 = st.2 ++ Δ ∧ (∀ x ∈ Δ, x ∉ st.1) ∧
    (∀ x, x ∈ st'.1 ↔ x ∈ st.1 ∨ x ∈ Δ) ∧
    (∀ x ∈ Δ, Reach s v x) ∧ Inv s st' ∧ v ∈ st'.1

theorem visit_spec (s : Store) (hwf : ∀ v, ∀ c ∈ prevOf s v, c < v) :
    ∀ f v st, v < f → Inv s st → (∀ g ∈ st.1, g ∉ st.2 → v < g) →
      StepConcl s v st (visit s f v st) := by
  intro f
  induction f with
  | zero => intro v st hv _ _; exact absurd hv (Nat.not_lt_zero v)
  | succ f ihf =>
    intro v st hvf hinv hgray
    rw [visit_succ]
    by_cases hv : v ∈ st.1
    · rw [if_pos hv]
      exact ⟨[], (List.append_nil _).symm, by simp, fun x => by simp,
        by simp, hinv, hv⟩
    · rw [if_neg hv]
      have hchild : ∀ c ∈ prevOf s v, c < f := fun c hc =>
        Nat.lt_of_lt_of_le (hwf v c hc) (Nat.lt_succ_iff.mp hvf)
      have hlist : ∀ (l : List NodeId), (∀ x ∈ l, x < f) →
          ∀ st0 : DfsSt, Inv s st0 →
          (∀ g ∈ st0.1, g ∉ st0.2 → ∀ x ∈ l, x < g) →
          ∃ Δ, (l.foldl (fun acc c => visit s f c acc) st0).2 = st0.2 ++ Δ ∧
            (∀ x ∈ Δ, x ∉ st0.1) ∧
            (∀ x, x ∈ (l.foldl (fun acc c => visit s f c acc) st0).1 ↔
              x ∈ st0.1 ∨ x ∈ Δ) ∧
            (∀ x ∈ Δ, ∃ y ∈ l, Reach s y x) ∧
            Inv s (l.foldl (fun acc c => visit s f c acc) st0) ∧
            (∀ x ∈ l, x ∈ (l.foldl (fun acc c => visit s f c acc) st0).1) := by
        intro l
        induction l with
        | nil =>
            intro _ st0 hinv0 _
            exact ⟨[], (List.append_nil _).symm, by simp, fun x => by simp,
              by simp, hinv0, by simp⟩
        | cons c t iht =>
            intro hbound st0 hinv0 hgray0
            simp only [List.foldl_cons]
            obtain ⟨Δ1, ht1, hnv1, hm1, hr1, hinv1, hcv1⟩ :=
              ihf c st0 (hbound c (List.mem_cons_self ..)) hinv0
                (fun g hg hgt => hgray0 g hg hgt c (List.mem_cons_self ..))
            have hgrayst1 : ∀ g ∈ (visit s f c st0).1, g ∉ (visit s f c st0).2 →
                ∀ x ∈ t, x < g := by
              intro g hg hgn x hx
              rcases (hm1 g).mp hg with hgs | hgΔ
              · have hns : g ∉ st0.2 := fun hmem =>
                  hgn (ht1 ▸ List.mem_append_left _ hmem)
                exact hgray0 g hgs hns x (List.mem_cons_of_mem _ hx)
              · exact absurd (ht1 ▸ List.mem_append_right _ hgΔ) hgn
            obtain ⟨Δ2, ht2, hnv2, hm2, hr2, hinv2, hall2⟩ :=
              iht (fun x hx => hbound x (List.mem_cons_of_mem _ hx))
                (visit s f c st0) hinv1 hgrayst1
            refine ⟨Δ1 ++ Δ2, ?_, ?_, ?_, ?_, hinv2, ?_⟩
            · rw [ht2, ht1, List.append_assoc]
            · intro x hx
              rcases List.mem_append.mp hx with h1 | h2
              · exact hnv1 x h1
              · exact fun hmem => hnv2 x h2 ((hm1 x).mpr (Or.inl hmem))
            · intro x
              rw [hm2 x, hm1 x, List.mem_append, or_assoc]
            · intro x hx
              rcases List.mem_append.mp hx with h1 | h2
              · exact ⟨c, List.mem_cons_self .., hr1 x h1⟩
              · obtain ⟨y, hy, hr⟩ := hr2 x h2
                exact ⟨y, List.mem_cons_of_mem _ hy, hr⟩
            · intro x hx
              rcases List.mem_cons.mp hx with rfl | hxt
              · exact (hm2 x).mpr (Or.inl hcv1)
              · exact hall2 x hxt
      have hinv' : Inv s (v :: st.1, st.2) :=
        ⟨hinv.1, fun x hx => List.mem_cons_of_mem _ (hinv.2.1 x hx), hinv.2.2⟩
      have hgray' : ∀ g ∈ (v :: st.1, st.2).1, g ∉ (v :: st.1, st.2).2 →
          ∀ x ∈ prevOf s v, x < g := by
        intro g hg hgn x hx
        rcases List.mem_cons.mp hg with rfl | hgs
        · exact hwf g x hx
        · exact Nat.lt_trans (hwf v x hx) (hgray g hgs hgn)
      obtain ⟨Δc, htc, hnvc, hmc, hrc, hinvc, hallc⟩ :=
        hlist (prevOf s v) hchild (v :: st.1, st.2) hinv' hgray'
      have hvnotΔ : v ∉ Δc := fun hmem =>
        hnvc v hmem (List.mem_cons_self ..)
      have hvnot2 : v ∉ st.2 := fun hmem => hv (hinv.2.1 v hmem)
      refine ⟨Δc ++ [v], ?_, ?_, ?_, ?_, ⟨?_, ?_, ?_⟩, ?_⟩
      · rw [htc, List.append_assoc]
      · intro x hx
        rcases List.mem_append.mp hx with h1 | h2
        · exact fun hmem => hnvc x h1 (List.mem_cons_of_mem _ hmem)
        · rw [List.mem_singleton.mp h2]; exact hv
      · intro x
        rw [hmc x, List.mem_cons, List.mem_append, List.mem_singleton]
        tauto
      · intro x hx
        rcases List.mem_append.mp hx with h1 | h2
        · obtain ⟨y, hy, hr⟩ := hrc x h1
          exact Reach.head hy hr
        · rw [List.mem_singleton.mp h2]; exact Reach.refl v
      · -- no duplicate is recorded
        rw [List.nodup_append]
        refine ⟨hinvc.1, List.nodup_singleton v, ?_⟩
        intro x hx hx2
        rw [List.mem_singleton.mp hx2] at hx
        rw [htc] at hx
        rcases List.mem_append.mp hx with h1 | h2
        · exact hvnot2 h1
        · exact hvnotΔ h2
      · -- the recorded list stays inside the visited set
        intro x hx
        rcases List.mem_append.mp hx with h1 | h2
        · exact hinvc.2.1 x h1
        · rw [List.mem_singleton.mp h2]
          exact (hmc v).mpr (Or.inl (List.mem_cons_self ..))
      · -- the recorded list stays child-closed when `v` is appended
        intro n hn c hc
        set F := (prevOf s v).foldl (fun acc c => visit s f c acc)
          (v :: st.1, st.2) with hF
        rcases Nat.lt_or_ge n F.2.length with hlt | hge
        · rw [List.getElem_append_left hlt] at hc
          rw [List.take_append_of_le_length (Nat.le_of_lt hlt)]
          exact hinvc.2.2 n hlt c hc
        · have hneq : n = F.2.length := by
            have := hn
            simp only [List.length_append, List.length_singleton] at this
            omega
          rw [List.getElem_concat_length _ _ _ hneq] at hc
          rw [hneq, List.take_append_of_le_length (Nat.le_refl _),
            List.take_length]
          have hcF : c ∈ F.1 := hallc c hc
          rcases (hmc c).mp hcF with hcv | hcΔ
          · rcases List.mem_cons.mp hcv with rfl | hcs
            · exact absurd (hwf _ _ hc) (Nat.lt_irrefl _)
            · by_cases hc2 : c ∈ st.2
              · rw [htc]; exact List.mem_append_left _ hc2
              · exact absurd (hgray c hcs hc2) (Nat.not_lt.mpr
                  (Nat.le_of_lt (hwf v c hc)))
          · rw [htc]; exact List.mem_append_right _ hcΔ
      · exact (hmc v).mpr (Or.inl (List.mem_cons_self ..))

/-- The recorded order of `build_topo(root)`: no duplicates, exactly
the nodes reachable from the root, and child-closed (children strictly
earlier). -/
theorem buildTopo_spec (s : Store) (hwf : WFStore s) (root : NodeId) :
    (buildTopo s root).Nodup ∧
    (∀ v, v ∈ buildTopo s root ↔ Reach s root v) ∧
    Closed s (buildTopo s root) := by
  obtain ⟨Δ, ht, hnv, hm, hr, hinv, hvin⟩ :=
    visit_spec s hwf.all (root + 1) root ([], [])
      (Nat.lt_succ_self root)
      ⟨List.nodup_nil, by intro x hx; exact absurd hx (List.not_mem_nil x),
        by intro n hn; exact absurd hn (Nat.not_lt_zero n)⟩
      (by intro g hg; exact absurd hg (List.not_mem_nil g))
  have htopo : buildTopo s root = Δ := by
    show (visit s (root + 1) root ([], [])).2 = Δ
    rw [ht]; rfl
  have hclosed : Closed s (buildTopo s root) := hinv.2.2
  have hnodup : (buildTopo s root).Nodup := hinv.1
  have hrootmem : root ∈ buildTopo s root := by
    rw [htopo]
    rcases (hm root).mp hvin with h | h
    · exact absurd h (List.not_mem_nil root)
    · exact h
  refine ⟨hnodup, fun v => ⟨?_, ?_⟩, hclosed⟩
  · intro hv
    rw [htopo] at hv
    exact hr v hv
  · intro hreach
    have mono : ∀ a x, Reach s a x →
        a ∈ buildTopo s root → x ∈ buildTopo s root := by
      intro a x h
      induction h with
      | refl => exact id
      | head hc _ ih => exact fun ha => ih (hclosed.mem _ ha _ hc)
    exact mono root v hreach hrootmem

/-- C2: `backward(root)` first records every node reachable through the
children relation exactly once, each node appearing only after all its
children, then seeds the root's grad with ones of the root's shape, and
then invokes the recorded nodes' closures in reverse recorded order.
(The store-index well-formedness hypothesis holds for every store the
constructors build: children always predate their parents.) -/
theorem backward_records_seeds_replays (s : Store) (root : NodeId)
    (hwf : WFStore s) :
    (buildTopo s root).Nodup ∧
    (∀ v, v ∈ buildTopo s root ↔ Reach s root v) ∧
    (∀ n (h : n < (buildTopo s root).length),
      ∀ c ∈ prevOf s ((buildTopo s root)[n]), c ∈ (buildTopo s root).take n) ∧
    backward s root =
      replay (buildTopo s root).reverse
        (setGrad s root (Arr.onesLike (dataOf s root))) := by
  obtain ⟨h1, h2, h3⟩ := buildTopo_spec s hwf root
  exact ⟨h1, h2, fun n hn => h3 n hn, backward_eq_replay s root⟩

/-- `a`, `b` scalar leaves, `z = Add(a, b)`. -/
def topoDemoStore : Store :=
  (Add (mkLeaf (mkLeaf [] (Arr.scalar 1) true).1 (Arr.scalar 2) true).1 0 1).1

theorem backward_records_seeds_replays_witness :
    WFStore topoDemoStore ∧
    ((buildTopo topoDemoStore 2).Nodup ∧
    (∀ v, v ∈ buildTopo topoDemoStore 2 ↔ Reach topoDemoStore 2 v) ∧
    (∀ n (h : n < (buildTopo topoDemoStore 2).length),
      ∀ c ∈ prevOf topoDemoStore ((buildTopo topoDemoStore 2)[n]),
        c ∈ (buildTopo topoDemoStore 2).take n) ∧
    backward topoDemoStore 2 =
      replay (buildTopo topoDemoStore 2).reverse
        (setGrad topoDemoStore 2
          (Arr.onesLike (dataOf topoDemoStore 2)))) :=
  ⟨by decide, backward_records_seeds_replays topoDemoStore 2 (by decide)⟩

end NN

